import Mathlib

/-!
# Verification of the LVDS-to-USB frame bridge firmware

Shallow embedding of the core logic of `src/firmware/pico2-lvds-bridge/main.c`:
the CRC-16/CCITT-FALSE implementation, the resynchronizing line parser
(`parse_ring_data`), the frame assembler (`handle_complete_line`,
`emit_assembled_frame`), the non-blocking frame sender (`send_frame_chunk`)
and the status command ('S') of `process_host_commands`.

Modelling conventions:
* C byte values are `Nat` known/required to be `< 256`; 16-bit and 32-bit
  machine arithmetic carries explicit `% 2^16` / `% 2^32` where the C code
  can overflow.
* The DMA byte ring is abstracted: the parser is modelled as a fold of the
  per-byte transition over the list of bytes delivered by the ring, in
  arrival order.  The per-call consumption budget (8192) only bounds work
  per polling iteration and does not change the state evolution.
* The two physical assembly buffers `fb_a`/`fb_b` are modelled as the
  current assembly content (`asm_fb : Nat → Nat`) plus the pending-send
  content (`send_fb : Option (Nat → Nat)`); handing a frame off copies the
  function value, which coincides with the C pointer swap on every byte
  index the program ever reads.
* Host-channel I/O (`tud_cdc_*`) is modelled by an `avail`/accepted-bytes
  channel parameter for the sender, and elided for the status text.
-/

/-- Structure `lvds_proto_t` from main.c: per-variant protocol descriptor. -/
structure lvds_proto_t where
  width : Nat
  active_height : Nat
  lvds_height : Nat
  line_size : Nat
  baud : Nat
deriving DecidableEq, Repr

def BAUD_NICHIA : Nat := 12500000

def BAUD_OSRAM : Nat := 20000000

/-- Descriptor `PROTO_NICHIA = { 256, 64, 68, 260, BAUD_NICHIA }`. -/
def PROTO_NICHIA : lvds_proto_t := ⟨256, 64, 68, 260, BAUD_NICHIA⟩

/-- Descriptor `PROTO_OSRAM = { 320, 80, 84, 324, BAUD_OSRAM }`. -/
def PROTO_OSRAM : lvds_proto_t := ⟨320, 80, 84, 324, BAUD_OSRAM⟩

/-- Enumeration `protocol_mode_t` from main.c. -/
inductive protocol_mode_t | MODE_NICHIA | MODE_OSRAM
deriving DecidableEq, Repr

open protocol_mode_t

/-- The descriptor selected by `start_pio` for a mode (`proto` global). -/
def proto : protocol_mode_t → lvds_proto_t
  | MODE_NICHIA => PROTO_NICHIA
  | MODE_OSRAM => PROTO_OSRAM

def SYNC_BYTE : Nat := 0x5D

def FRAME_MAGIC_0 : Nat := 0xFE

def FRAME_MAGIC_1 : Nat := 0xED

def FRAME_HDR_SIZE : Nat := 8

def MAX_GAP_BYTES : Nat := 64

/-- Function `extract_row` from main.c: Nichia masks off the parity bit, Osram is
the raw row number. -/
def extract_row (m : protocol_mode_t) (raw : Nat) : Nat :=
  match m with
  | MODE_NICHIA => raw &&& 0x7F
  | MODE_OSRAM => raw

/-- One iteration of the inner loop of `init_crc16_table` / the spec's
bitwise recurrence: a left shift on a `uint16_t`, XORing in the polynomial
`0x1021` when the MSB was set. -/
def crc_shift (c : Nat) : Nat :=
  if c &&& 0x8000 ≠ 0 then ((c <<< 1) ^^^ 0x1021) % 2 ^ 16 else (c <<< 1) % 2 ^ 16

/-- Entry `i` of `crc16_table` as computed by `init_crc16_table`:
eight `crc_shift` steps starting from `(uint16_t)(i << 8)`.  The table is
only ever indexed by a `uint8_t`, i.e. at `i < 256`. -/
def crc16_table (i : Nat) : Nat :=
  crc_shift^[8] ((i <<< 8) % 2 ^ 16)

/-- Function `crc16_ccitt` from main.c: table-driven CRC over a byte list, initial
value `0xFFFF`.  The `% 256` on the index mirrors the `uint8_t idx` cast;
the `% 2^16` mirrors the `uint16_t crc` assignment. -/
def crc16_ccitt (data : List Nat) : Nat :=
  data.foldl
    (fun crc b => ((crc <<< 8) ^^^ crc16_table (((crc >>> 8) ^^^ b) % 256)) % 2 ^ 16)
    0xFFFF

/-- Enumeration `parse_state_t` from main.c. -/
inductive parse_state_t | SCAN_SYNC | READ_LINE | SCAN_GAP
deriving DecidableEq, Repr

open parse_state_t

/-- The mutable firmware state touched by the parser, assembler, sender and
status command.  Fields are named after the C globals.  `line_data` holds
the `line_pos` bytes accumulated so far (`line_pos = line_data.length`). -/
structure Machine where
  ps : parse_state_t
  line_data : List Nat
  gap_budget : Int
  frame_locked : Bool
  prev_row : Int
  line_placed : Nat → Bool
  lines_placed : Nat
  asm_fb : Nat → Nat
  send_fb : Option (Nat → Nat)
  send_hdr : List Nat
  send_total : Nat
  send_offset : Nat
  fw_frame_id : Nat
  frames_sent : Nat
  frames_dropped : Nat
  crc_errors : Nat
  crc_ok_lines : Nat
  gap_bytes_total : Nat
  gap_resyncs : Nat
  total_usb_bytes : Nat
  max_fill : Nat
  ring_rd : Nat
  ring_buf : Nat → Nat

/-- The state after boot / `reset_frame_state` + `start_dma` (all globals
at their C initializers, buffers zeroed). -/
def reset_machine : Machine where
  ps := SCAN_SYNC
  line_data := []
  gap_budget := 0
  frame_locked := false
  prev_row := -1
  line_placed := fun _ => false
  lines_placed := 0
  asm_fb := fun _ => 0
  send_fb := none
  send_hdr := List.replicate 8 0
  send_total := 0
  send_offset := 0
  fw_frame_id := 0
  frames_sent := 0
  frames_dropped := 0
  crc_errors := 0
  crc_ok_lines := 0
  gap_bytes_total := 0
  gap_resyncs := 0
  total_usb_bytes := 0
  max_fill := 0
  ring_rd := 0
  ring_buf := fun _ => 0

/-- Function `emit_assembled_frame` from main.c.  Increments the frame id
unconditionally; on a free pending-send slot hands the assembled buffer
off and stamps the header, otherwise counts a drop; in both cases clears
the (new) assembly buffer and the placed-row bookkeeping. -/
def emit_assembled_frame (p : lvds_proto_t) (s : Machine) : Machine :=
  let fid := (s.fw_frame_id + 1) % 2 ^ 32
  let s1 :=
    if s.send_fb.isNone then
      { s with
        fw_frame_id := fid
        send_fb := some s.asm_fb
        send_offset := 0
        send_total := FRAME_HDR_SIZE + p.width * p.active_height
        send_hdr :=
          [FRAME_MAGIC_0, FRAME_MAGIC_1, fid % 256, (fid >>> 8) % 256,
           p.width % 256, (p.width >>> 8) % 256,
           p.active_height % 256, (p.active_height >>> 8) % 256]
        frames_sent := (s.frames_sent + 1) % 2 ^ 32 }
    else
      { s with
        fw_frame_id := fid
        frames_dropped := (s.frames_dropped + 1) % 2 ^ 32 }
  { s1 with
    line_placed := fun i => if i < p.lvds_height then false else s1.line_placed i
    asm_fb := fun i => if i < p.width * p.active_height then 0 else s1.asm_fb i
    lines_placed := 0 }

/-- Function `handle_complete_line` from main.c, acting on a state whose
`line_data` holds a complete `line_size`-byte record.  Returns the updated
state and the CRC verdict. -/
def handle_complete_line (m : protocol_mode_t) (s : Machine) : Machine × Bool :=
  let p := proto m
  let row := extract_row m (s.line_data.getD 1 0)
  let crc_exp := ((s.line_data.getD (p.line_size - 2) 0) <<< 8) |||
    s.line_data.getD (p.line_size - 1) 0
  let crc_got := crc16_ccitt ((s.line_data.drop 2).take p.width)
  if crc_got ≠ crc_exp then
    ({ s with crc_errors := (s.crc_errors + 1) % 2 ^ 32 }, false)
  else
    let s1 := { s with crc_ok_lines := (s.crc_ok_lines + 1) % 2 ^ 32 }
    let s2 :=
      if (row : Int) ≤ s1.prev_row ∧ 0 ≤ s1.prev_row ∧ 0 < s1.lines_placed then
        emit_assembled_frame p s1
      else s1
    let s3 := { s2 with prev_row := (row : Int) }
    if row < p.active_height then
      ({ s3 with
          asm_fb := fun i =>
            if row * p.width ≤ i ∧ i < row * p.width + p.width then
              (s3.line_data.drop 2).getD (i - row * p.width) 0
            else s3.asm_fb i
          line_placed := fun i => if i = row then true else s3.line_placed i
          lines_placed :=
            if s3.line_placed row then s3.lines_placed else s3.lines_placed + 1 },
        true)
    else (s3, true)

/-- The `switch (ps)` body of `parse_ring_data` for one ring byte `b`. -/
def parse_step (m : protocol_mode_t) (s : Machine) (b : Nat) : Machine :=
  let p := proto m
  match s.ps with
  | SCAN_SYNC =>
    if b = SYNC_BYTE then
      { s with line_data := [b], ps := READ_LINE, frame_locked := false }
    else s
  | SCAN_GAP =>
    if b = SYNC_BYTE then
      { s with line_data := [b], ps := READ_LINE }
    else
      let s1 := { s with
        gap_bytes_total := (s.gap_bytes_total + 1) % 2 ^ 32
        gap_budget := s.gap_budget - 1 }
      if s1.gap_budget ≤ 0 then
        { s1 with
          gap_resyncs := (s1.gap_resyncs + 1) % 2 ^ 32
          frame_locked := false
          ps := SCAN_SYNC }
      else s1
  | READ_LINE =>
    let s1 := { s with line_data := s.line_data ++ [b] }
    if s1.line_data.length = 2 ∧ p.lvds_height ≤ extract_row m b then
      if s1.frame_locked then
        { s1 with gap_budget := (MAX_GAP_BYTES : Int) + p.line_size, ps := SCAN_GAP }
      else if b = SYNC_BYTE then
        { s1 with line_data := [b] }
      else
        { s1 with ps := SCAN_SYNC, line_data := [] }
    else if p.line_size ≤ s1.line_data.length then
      let r := handle_complete_line m s1
      let s2 := { r.1 with line_data := [] }
      if r.2 then
        { s2 with
          frame_locked := true
          gap_budget := (MAX_GAP_BYTES : Int)
          ps := SCAN_GAP }
      else
        { s2 with
          gap_budget := (MAX_GAP_BYTES : Int) + p.line_size
          ps := SCAN_GAP }
    else s1

/-- The parser fed a sequence of ring bytes in arrival order (the loop of
`parse_ring_data`, iterated across polling calls). -/
def parseBytes (m : protocol_mode_t) (s : Machine) (bs : List Nat) : Machine :=
  bs.foldl (parse_step m) s

/-- The `for (pass...)` loop of `send_frame_chunk`.  `remaining` is the
room the channel still has in this poll (`tud_cdc_write_available`); a
write of `chunk ≤ remaining` bytes is accepted in full.  Returns the new
send cursor, the bytes written (in order) and whether the pending-send
slot was released. -/
def send_passes (p : lvds_proto_t) (hdr : List Nat) (fb : Nat → Nat)
    (sendTotal : Nat) : Nat → Nat → Nat → Nat × List Nat × Bool
  | 0, _, offset => (offset, [], false)
  | fuel + 1, remaining, offset =>
    if remaining = 0 then (offset, [], false)
    else
      let hchunk := if offset < FRAME_HDR_SIZE then min remaining (FRAME_HDR_SIZE - offset) else 0
      let offset1 := offset + hchunk
      let rem1 := remaining - hchunk
      let hbytes := (hdr.drop offset).take hchunk
      if offset < FRAME_HDR_SIZE ∧ rem1 = 0 then (offset1, hbytes, false)
      else
        let pix_off := offset1 - FRAME_HDR_SIZE
        let pix_total := p.width * p.active_height
        let pchunk := if pix_off < pix_total then min rem1 (pix_total - pix_off) else 0
        let offset2 := offset1 + pchunk
        let pbytes := (List.range pchunk).map (fun j => fb (pix_off + j))
        if sendTotal ≤ offset2 then (offset2, hbytes ++ pbytes, true)
        else
          let r := send_passes p hdr fb sendTotal fuel (rem1 - pchunk) offset2
          (r.1, hbytes ++ pbytes ++ r.2.1, r.2.2)

/-- Function `send_frame_chunk` from main.c for one poll.  `connected` is
`tud_cdc_connected()`, `cap` the channel room this poll.  Returns the new
state and the bytes actually written to the channel. -/
def send_frame_chunk (p : lvds_proto_t) (connected : Bool) (cap : Nat)
    (s : Machine) : Machine × List Nat :=
  match s.send_fb with
  | none => (s, [])
  | some fb =>
    if ¬connected then ({ s with send_fb := none }, [])
    else
      let r := send_passes p s.send_hdr fb s.send_total 4 cap s.send_offset
      ({ s with
          send_offset := r.1
          total_usb_bytes := (s.total_usb_bytes + r.2.1.length) % 2 ^ 32
          send_fb := if r.2.2 then none else some fb },
        r.2.1)

/-- The state effects of the 'S'/'s' host command in
`process_host_commands` (status emission and PIO/DMA control elided):
parser reset, partial line discarded, ring consumer cursor zeroed,
pending-send slot released, then `start_dma` zeroes the ring contents,
the cursor and the peak-fill statistic. -/
def command_S (s : Machine) : Machine :=
  let s1 := { s with ps := SCAN_SYNC, line_data := [], ring_rd := 0 }
  let s2 := if s1.send_fb.isSome then { s1 with send_fb := none, send_offset := 0 } else s1
  { s2 with ring_buf := fun _ => 0, ring_rd := 0, max_fill := 0 }

/-- Wire encoding of one well-formed line record (cf. the parsing layout
in `handle_complete_line`): sync marker, raw row byte, payload, then the
CRC over the payload, high byte first. -/
def mk_line_record (row : Nat) (payload : List Nat) : List Nat :=
  SYNC_BYTE :: row :: payload ++ [crc16_ccitt payload >>> 8, crc16_ccitt payload % 256]

/-- A synthetic stream of consecutive well-formed line records with row
addresses `r0, r0+1, ...` and the given payloads. -/
def records_from (r0 : Nat) : List (List Nat) → List Nat
  | [] => []
  | pl :: rest => mk_line_record r0 pl ++ records_from (r0 + 1) rest

/-- Modelled from the spec: CRC-16/CCITT-FALSE as the spec defines it —
polynomial 0x1021, initial value 0xFFFF, no reflection, MSB first: each
byte is XORed into the high byte of the running CRC, followed by eight
shift-and-conditionally-XOR steps.  Used as the reference point of claim
C8 against the table-driven implementation. -/
def crc16_ccitt_false_spec (data : List Nat) : Nat :=
  data.foldl (fun crc b => crc_shift^[8] (crc ^^^ ((b % 256) <<< 8))) 0xFFFF

/-! ## Bit-level helper lemmas for the CRC equivalence -/

theorem shiftLeft_xor_distrib (x y n : Nat) :
    (x ^^^ y) <<< n = (x <<< n) ^^^ (y <<< n) := by
  refine Nat.eq_of_testBit_eq fun i => ?_
  simp [Nat.testBit_shiftLeft, Nat.testBit_xor, Bool.and_xor_distrib_left]

theorem mod_two_pow_xor_distrib (x y n : Nat) :
    (x ^^^ y) % 2 ^ n = x % 2 ^ n ^^^ y % 2 ^ n := by
  refine Nat.eq_of_testBit_eq fun i => ?_
  simp [Nat.testBit_mod_two_pow, Nat.testBit_xor, Bool.and_xor_distrib_left]

theorem and_msb_ne_zero_iff (c : Nat) : (c &&& 0x8000 ≠ 0) ↔ c.testBit 15 := by
  have h := Nat.and_two_pow c 15
  norm_num at h
  rw [h]
  cases hc : c.testBit 15 <;> simp

theorem xor_left_swap (a b c : Nat) : a ^^^ (b ^^^ c) = b ^^^ (a ^^^ c) := by
  rw [← Nat.xor_assoc, Nat.xor_comm a b, Nat.xor_assoc]

theorem crc_shift_eq (c : Nat) :
    crc_shift c = ((c <<< 1) % 2 ^ 16) ^^^ (if c.testBit 15 then 0x1021 else 0) := by
  rw [crc_shift]
  by_cases h : c.testBit 15
  · rw [if_pos ((and_msb_ne_zero_iff c).mpr h), if_pos h, mod_two_pow_xor_distrib]
    norm_num
  · rw [if_neg (fun hne => h ((and_msb_ne_zero_iff c).mp hne)), if_neg h, Nat.xor_zero]

theorem crc_shift_xor (x y : Nat) :
    crc_shift (x ^^^ y) = crc_shift x ^^^ crc_shift y := by
  rw [crc_shift_eq, crc_shift_eq, crc_shift_eq, shiftLeft_xor_distrib,
    mod_two_pow_xor_distrib]
  have ht : (x ^^^ y).testBit 15 = ((x.testBit 15).xor (y.testBit 15)) :=
    Nat.testBit_xor x y 15
  cases hx : x.testBit 15 <;> cases hy : y.testBit 15 <;>
    simp only [ht, hx, hy, Bool.xor_false, Bool.xor_true, Bool.not_true, Bool.not_false] <;>
    norm_num
  · rw [Nat.xor_assoc]
  · rw [Nat.xor_assoc, Nat.xor_assoc, Nat.xor_comm (y <<< 1 % 65536) (4129 : Nat)]
  · rw [Nat.xor_assoc, xor_left_swap (4129 : Nat), Nat.xor_self, Nat.xor_zero]

theorem crc_shift8_xor (x y : Nat) :
    crc_shift^[8] (x ^^^ y) = crc_shift^[8] x ^^^ crc_shift^[8] y := by
  have gen : ∀ k x y, crc_shift^[k] (x ^^^ y) = crc_shift^[k] x ^^^ crc_shift^[k] y := by
    intro k
    induction k with
    | zero => intro x y; simp
    | succ k ih =>
      intro x y
      rw [Function.iterate_succ_apply, Function.iterate_succ_apply,
        Function.iterate_succ_apply, crc_shift_xor, ih]
  exact gen 8 x y

theorem crc_shift_lt (c : Nat) : crc_shift c < 2 ^ 16 := by
  rw [crc_shift]
  split <;> exact Nat.mod_lt _ (by norm_num)

theorem crc_shift8_lt (c : Nat) : crc_shift^[8] c < 2 ^ 16 := by
  rw [show (8 : Nat) = 7 + 1 from rfl, Function.iterate_succ_apply']
  exact crc_shift_lt _

theorem crc_shift_of_lt (c : Nat) (h : c < 2 ^ 15) : crc_shift c = c <<< 1 := by
  rw [crc_shift_eq]
  have ht : c.testBit 15 = false := Nat.testBit_lt_two_pow h
  rw [ht, if_neg (by simp), Nat.xor_zero, Nat.mod_eq_of_lt]
  rw [Nat.shiftLeft_eq, pow_one]
  calc c * 2 < 2 ^ 15 * 2 := by omega
  _ = 2 ^ 16 := by norm_num

theorem crc_shift8_low (c : Nat) (h : c < 2 ^ 8) : crc_shift^[8] c = c <<< 8 := by
  have step : ∀ k c, k ≤ 8 → c < 2 ^ (16 - k) → crc_shift^[k] c = c <<< k := by
    intro k
    induction k with
    | zero => intro c _ _; simp
    | succ k ih =>
      intro c hk hc
      have hlt : c < 2 ^ 15 := lt_of_lt_of_le hc (Nat.pow_le_pow_right (by norm_num) (by omega))
      rw [Function.iterate_succ_apply, crc_shift_of_lt c hlt, ih _ (by omega)]
      · rw [Nat.shiftLeft_eq, Nat.shiftLeft_eq, Nat.shiftLeft_eq, mul_assoc,
          ← pow_succ']
      · rw [Nat.shiftLeft_eq, pow_one]
        have : 2 ^ (16 - (k + 1)) * 2 = 2 ^ (16 - k) := by
          rw [← pow_succ]
          congr 1
          omega
        omega
  exact step 8 c le_rfl h

theorem byte_split (c b : Nat) :
    c ^^^ (b <<< 8) = (((c >>> 8) ^^^ b) <<< 8) ^^^ c % 2 ^ 8 := by
  refine Nat.eq_of_testBit_eq fun i => ?_
  simp only [Nat.testBit_xor, Nat.testBit_shiftLeft, Nat.testBit_shiftRight,
    Nat.testBit_mod_two_pow]
  by_cases h : 8 ≤ i
  · have e : 8 + (i - 8) = i := by omega
    have h2 : ¬ i < 8 := by omega
    simp [h, h2, e]
  · have h2 : i < 8 := by omega
    simp [h, h2, Bool.xor_comm]

theorem shiftLeft8_mod16 (c : Nat) : (c <<< 8) % 2 ^ 16 = (c % 2 ^ 8) <<< 8 := by
  refine Nat.eq_of_testBit_eq fun i => ?_
  simp only [Nat.testBit_shiftLeft, Nat.testBit_mod_two_pow]
  by_cases h8 : 8 ≤ i
  · by_cases h16 : i < 16
    · have e : i - 8 < 8 := by omega
      simp [h8, h16, e]
    · have e : ¬ i - 8 < 8 := by omega
      simp [h8, h16, e]
  · simp [h8]

theorem high_low_or (c : Nat) : ((c >>> 8) <<< 8) ||| c % 256 = c := by
  refine Nat.eq_of_testBit_eq fun i => ?_
  simp only [Nat.testBit_or, Nat.testBit_shiftLeft, Nat.testBit_shiftRight,
    show (256 : Nat) = 2 ^ 8 from rfl, Nat.testBit_mod_two_pow]
  by_cases h : 8 ≤ i
  · have e : 8 + (i - 8) = i := by omega
    have h2 : ¬ i < 8 := by omega
    simp [h, h2, e]
  · have h2 : i < 8 := by omega
    simp [h, h2]

theorem crc_step_eq (c b : Nat) (hc : c < 2 ^ 16) (hb : b < 256) :
    ((c <<< 8) ^^^ crc16_table (((c >>> 8) ^^^ b) % 256)) % 2 ^ 16 =
    crc_shift^[8] (c ^^^ ((b % 256) <<< 8)) := by
  have hb' : b % 256 = b := Nat.mod_eq_of_lt hb
  have hcs : c >>> 8 < 256 := by
    rw [Nat.shiftRight_eq_div_pow]
    exact Nat.div_lt_of_lt_mul (by norm_num at hc ⊢; omega)
  have hidx : (c >>> 8) ^^^ b < 256 :=
    Nat.xor_lt_two_pow (n := 8) (by norm_num at hcs ⊢; omega) (by norm_num; omega)
  have hidx' : ((c >>> 8) ^^^ b) % 256 = (c >>> 8) ^^^ b := Nat.mod_eq_of_lt hidx
  have htbl : crc16_table ((c >>> 8) ^^^ b) =
      crc_shift^[8] (((c >>> 8) ^^^ b) <<< 8) := by
    rw [crc16_table, Nat.mod_eq_of_lt]
    rw [Nat.shiftLeft_eq]
    calc ((c >>> 8) ^^^ b) * 2 ^ 8 < 256 * 2 ^ 8 := by
          exact Nat.mul_lt_mul_of_lt_of_le hidx le_rfl (by norm_num)
    _ = 2 ^ 16 := by norm_num
  rw [hb', byte_split c b, crc_shift8_xor, hidx', htbl,
    crc_shift8_low (c % 2 ^ 8) (Nat.mod_lt _ (by norm_num)),
    mod_two_pow_xor_distrib, shiftLeft8_mod16,
    Nat.mod_eq_of_lt (crc_shift8_lt _), Nat.xor_comm]

theorem crc16_ccitt_eq_spec (data : List Nat) (hd : ∀ b ∈ data, b < 256) :
    crc16_ccitt data = crc16_ccitt_false_spec data := by
  have gen : ∀ (l : List Nat), (∀ b ∈ l, b < 256) → ∀ c, c < 2 ^ 16 →
      l.foldl (fun crc b =>
        ((crc <<< 8) ^^^ crc16_table (((crc >>> 8) ^^^ b) % 256)) % 2 ^ 16) c =
      l.foldl (fun crc b => crc_shift^[8] (crc ^^^ ((b % 256) <<< 8))) c := by
    intro l
    induction l with
    | nil => intro _ c _; rfl
    | cons x xs ih =>
      intro hl c hc
      simp only [List.foldl_cons]
      rw [crc_step_eq c x hc (hl x (by simp))]
      exact ih (fun b hb => hl b (by simp [hb])) _ (crc_shift8_lt _)
  exact gen data hd 0xFFFF (by norm_num)

theorem crc16_ccitt_lt (data : List Nat) : crc16_ccitt data < 2 ^ 16 := by
  have gen : ∀ (l : List Nat) (c : Nat), c < 2 ^ 16 →
      l.foldl (fun crc b =>
        ((crc <<< 8) ^^^ crc16_table (((crc >>> 8) ^^^ b) % 256)) % 2 ^ 16) c < 2 ^ 16 := by
    intro l
    induction l with
    | nil => intro c hc; exact hc
    | cons x xs ih =>
      intro c _
      simp only [List.foldl_cons]
      exact ih _ (Nat.mod_lt _ (by norm_num))
  exact gen data 0xFFFF (by norm_num)

/-! ## Protocol descriptor facts -/

theorem proto_line_size_eq (m : protocol_mode_t) :
    (proto m).line_size = (proto m).width + 4 := by
  cases m <;> rfl

theorem proto_two_lt_line_size (m : protocol_mode_t) : 2 < (proto m).line_size := by
  cases m <;> norm_num [proto, PROTO_NICHIA, PROTO_OSRAM]

theorem proto_active_le_lvds (m : protocol_mode_t) :
    (proto m).active_height ≤ (proto m).lvds_height := by
  cases m <;> norm_num [proto, PROTO_NICHIA, PROTO_OSRAM]

theorem proto_lvds_le_128 (m : protocol_mode_t) : (proto m).lvds_height ≤ 128 := by
  cases m <;> norm_num [proto, PROTO_NICHIA, PROTO_OSRAM]

theorem proto_width_pos (m : protocol_mode_t) : 0 < (proto m).width := by
  cases m <;> norm_num [proto, PROTO_NICHIA, PROTO_OSRAM]

theorem proto_active_pos (m : protocol_mode_t) : 0 < (proto m).active_height := by
  cases m <;> norm_num [proto, PROTO_NICHIA, PROTO_OSRAM]

theorem extract_row_id (m : protocol_mode_t) (r : Nat) (h : r < 128) :
    extract_row m r = r := by
  cases m
  · show r &&& 0x7F = r
    refine Nat.eq_of_testBit_eq fun i => ?_
    rw [Nat.testBit_and, show (0x7F : Nat) = 2 ^ 7 - 1 from rfl,
      Nat.testBit_two_pow_sub_one]
    by_cases hi : i < 7
    · simp [hi]
    · have h7 : r < 2 ^ 7 := by omega
      have hle : (2 : Nat) ^ 7 ≤ 2 ^ i :=
        Nat.pow_le_pow_right (by norm_num) (by omega : 7 ≤ i)
      have hz : r.testBit i = false := Nat.testBit_lt_two_pow (lt_of_lt_of_le h7 hle)
      simp [hi, hz]
  · rfl

/-! ## Parser single-step characterizations -/

theorem parse_step_sync_hit (m : protocol_mode_t) (s : Machine) (h : s.ps = SCAN_SYNC) :
    parse_step m s SYNC_BYTE =
      { s with line_data := [SYNC_BYTE], ps := READ_LINE, frame_locked := false } := by
  simp [parse_step, h]

theorem parse_step_sync_miss (m : protocol_mode_t) (s : Machine) (b : Nat)
    (h : s.ps = SCAN_SYNC) (hb : b ≠ SYNC_BYTE) :
    parse_step m s b = s := by
  simp [parse_step, h, hb]

theorem parse_step_gap_hit (m : protocol_mode_t) (s : Machine) (h : s.ps = SCAN_GAP) :
    parse_step m s SYNC_BYTE = { s with line_data := [SYNC_BYTE], ps := READ_LINE } := by
  simp [parse_step, h]

theorem parse_step_gap_miss (m : protocol_mode_t) (s : Machine) (b : Nat)
    (h : s.ps = SCAN_GAP) (hb : b ≠ SYNC_BYTE) (hbud : 1 < s.gap_budget) :
    parse_step m s b =
      { s with gap_bytes_total := (s.gap_bytes_total + 1) % 2 ^ 32,
               gap_budget := s.gap_budget - 1 } := by
  have : ¬ (s.gap_budget - 1 ≤ 0) := by omega
  simp [parse_step, h, hb, this]

theorem parse_step_gap_exhaust (m : protocol_mode_t) (s : Machine) (b : Nat)
    (h : s.ps = SCAN_GAP) (hb : b ≠ SYNC_BYTE) (hbud : s.gap_budget ≤ 1) :
    parse_step m s b =
      { s with gap_bytes_total := (s.gap_bytes_total + 1) % 2 ^ 32,
               gap_budget := s.gap_budget - 1,
               gap_resyncs := (s.gap_resyncs + 1) % 2 ^ 32,
               frame_locked := false,
               ps := SCAN_SYNC } := by
  have : s.gap_budget - 1 ≤ 0 := by omega
  simp [parse_step, h, hb, this]

theorem parse_step_read_mid (m : protocol_mode_t) (s : Machine) (b : Nat)
    (h : s.ps = READ_LINE)
    (hrow : s.line_data.length + 1 = 2 → extract_row m b < (proto m).lvds_height)
    (hlt : s.line_data.length + 1 < (proto m).line_size) :
    parse_step m s b = { s with line_data := s.line_data ++ [b] } := by
  have hns : ¬ ((proto m).line_size ≤ s.line_data.length + 1) := by omega
  by_cases h2 : s.line_data.length + 1 = 2
  · have hx : ¬ (proto m).lvds_height ≤ extract_row m b := by
      have := hrow h2
      omega
    have hns2 : ¬ ((proto m).line_size ≤ 2) := by omega
    simp [parse_step, h, h2, hx, hns, hns2]
  · simp [parse_step, h, h2, hns]

theorem parse_step_read_complete (m : protocol_mode_t) (s : Machine) (b : Nat)
    (h : s.ps = READ_LINE)
    (hlen : s.line_data.length + 1 = (proto m).line_size) :
    parse_step m s b =
      (if (handle_complete_line m { s with line_data := s.line_data ++ [b] }).2 then
        { (handle_complete_line m { s with line_data := s.line_data ++ [b] }).1 with
          line_data := [], frame_locked := true,
          gap_budget := (MAX_GAP_BYTES : Int), ps := SCAN_GAP }
      else
        { (handle_complete_line m { s with line_data := s.line_data ++ [b] }).1 with
          line_data := [],
          gap_budget := (MAX_GAP_BYTES : Int) + (proto m).line_size, ps := SCAN_GAP }) := by
  have h2 : ¬ (s.line_data.length + 1 = 2) := by
    have := proto_two_lt_line_size m
    omega
  have hcs : (proto m).line_size ≤ s.line_data.length + 1 := by omega
  simp only [parse_step, h]
  simp [h2, hcs]

theorem parse_step_read_reject (m : protocol_mode_t) (s : Machine) (b : Nat)
    (h : s.ps = READ_LINE) (hlen1 : s.line_data.length = 1)
    (hbad : (proto m).lvds_height ≤ extract_row m b) :
    parse_step m s b =
      (if s.frame_locked then
        { s with line_data := s.line_data ++ [b],
                 gap_budget := (MAX_GAP_BYTES : Int) + (proto m).line_size,
                 ps := SCAN_GAP }
      else if b = SYNC_BYTE then { s with line_data := [b] }
      else { s with line_data := [], ps := SCAN_SYNC }) := by
  have h2 : s.line_data.length + 1 = 2 := by omega
  simp only [parse_step, h]
  by_cases hl : s.frame_locked
  · simp [h2, hbad, hl]
  · by_cases hb : b = SYNC_BYTE
    · subst hb
      simp [h2, hbad, hl]
    · simp [h2, hbad, hl, hb]

theorem parseBytes_cons (m : protocol_mode_t) (s : Machine) (b : Nat) (bs : List Nat) :
    parseBytes m s (b :: bs) = parseBytes m (parse_step m s b) bs := rfl

theorem parseBytes_append (m : protocol_mode_t) (s : Machine) (as bs : List Nat) :
    parseBytes m s (as ++ bs) = parseBytes m (parseBytes m s as) bs := by
  simp [parseBytes, List.foldl_append]

theorem parse_read_accum (m : protocol_mode_t) (bs : List Nat) :
    ∀ s : Machine, s.ps = READ_LINE → 2 ≤ s.line_data.length →
    s.line_data.length + bs.length = (proto m).line_size → bs ≠ [] →
    parseBytes m s bs =
      (if (handle_complete_line m { s with line_data := s.line_data ++ bs }).2 then
        { (handle_complete_line m { s with line_data := s.line_data ++ bs }).1 with
          line_data := [], frame_locked := true,
          gap_budget := (MAX_GAP_BYTES : Int), ps := SCAN_GAP }
      else
        { (handle_complete_line m { s with line_data := s.line_data ++ bs }).1 with
          line_data := [],
          gap_budget := (MAX_GAP_BYTES : Int) + (proto m).line_size, ps := SCAN_GAP }) := by
  induction bs with
  | nil => intro s _ _ _ hne; exact absurd rfl hne
  | cons b rest ih =>
    intro s hps h2 hlen _
    cases rest with
    | nil =>
      have hl : s.line_data.length + 1 = (proto m).line_size := by
        simpa using hlen
      calc parseBytes m s [b] = parse_step m s b := rfl
      _ = _ := parse_step_read_complete m s b hps hl
    | cons b2 rest2 =>
      have hlt : s.line_data.length + 1 < (proto m).line_size := by
        simp only [List.length_cons] at hlen
        omega
      rw [parseBytes_cons,
        parse_step_read_mid m s b hps (fun h2' => by omega) hlt,
        ih _ (by simp [hps]) (by simp; omega) (by simp at hlen ⊢; omega) (by simp)]
      simp [List.append_assoc]

/-! ## Well-formed record facts -/

theorem mk_line_record_drop_two (row : Nat) (payload : List Nat) :
    (mk_line_record row payload).drop 2 =
      payload ++ [crc16_ccitt payload >>> 8, crc16_ccitt payload % 256] := rfl

theorem mk_line_record_getD_one (row : Nat) (payload : List Nat) :
    (mk_line_record row payload).getD 1 0 = row := rfl

theorem mk_line_record_length (row : Nat) (payload : List Nat) :
    (mk_line_record row payload).length = payload.length + 4 := by
  simp [mk_line_record]

theorem mk_line_record_getD_hi (row : Nat) (payload : List Nat) :
    (mk_line_record row payload).getD (payload.length + 2) 0 =
      crc16_ccitt payload >>> 8 := by
  show (SYNC_BYTE :: row :: (payload ++ [crc16_ccitt payload >>> 8, crc16_ccitt payload % 256])).getD
    (payload.length + 2) 0 = crc16_ccitt payload >>> 8
  rw [show payload.length + 2 = payload.length + 1 + 1 from rfl, List.getD_cons_succ,
    List.getD_cons_succ, List.getD_append_right _ _ _ _ le_rfl, Nat.sub_self]
  rfl

theorem mk_line_record_getD_lo (row : Nat) (payload : List Nat) :
    (mk_line_record row payload).getD (payload.length + 3) 0 =
      crc16_ccitt payload % 256 := by
  show (SYNC_BYTE :: row :: (payload ++ [crc16_ccitt payload >>> 8, crc16_ccitt payload % 256])).getD
    (payload.length + 3) 0 = crc16_ccitt payload % 256
  rw [show payload.length + 3 = payload.length + 2 + 1 from rfl,
    show payload.length + 2 = payload.length + 1 + 1 from rfl, List.getD_cons_succ,
    List.getD_cons_succ, List.getD_append_right _ _ _ _ (by omega)]
  rw [show payload.length + 1 - payload.length = 1 from by omega]
  rfl

theorem mk_line_record_take_payload (row : Nat) (payload : List Nat) :
    ((mk_line_record row payload).drop 2).take payload.length = payload := by
  rw [mk_line_record_drop_two]
  exact List.take_left payload _

theorem machine_eta_locked (s : Machine) (l : List Nat) (q : parse_state_t)
    (h : s.frame_locked = false) :
    ({ s with line_data := l, ps := q, frame_locked := false } : Machine) =
      { s with line_data := l, ps := q } := by
  cases s
  simp_all

/-- Effect of one well-formed line record with an in-range active row and
no frame boundary: the payload is placed at the row offset, the CRC-ok
counter advances, lock is (re)gained and the nominal gap budget is set. -/
theorem parse_record_place (m : protocol_mode_t) (s : Machine) (row : Nat)
    (payload : List Nat)
    (hstart : s.ps = SCAN_GAP ∨ (s.ps = SCAN_SYNC ∧ s.frame_locked = false))
    (hrowlt : row < (proto m).lvds_height)
    (hact : row < (proto m).active_height)
    (hpl : payload.length = (proto m).width)
    (hnb : ¬ ((row : Int) ≤ s.prev_row ∧ 0 ≤ s.prev_row ∧ 0 < s.lines_placed)) :
    parseBytes m s (mk_line_record row payload) =
      { s with
        ps := SCAN_GAP
        line_data := []
        gap_budget := (MAX_GAP_BYTES : Int)
        frame_locked := true
        prev_row := (row : Int)
        crc_ok_lines := (s.crc_ok_lines + 1) % 2 ^ 32
        asm_fb := fun i =>
          if row * (proto m).width ≤ i ∧ i < row * (proto m).width + (proto m).width then
            payload.getD (i - row * (proto m).width) 0
          else s.asm_fb i
        line_placed := fun i => if i = row then true else s.line_placed i
        lines_placed :=
          if s.line_placed row then s.lines_placed else s.lines_placed + 1 } := by
  have hlvds128 := proto_lvds_le_128 m
  have hrowid : extract_row m row = row := extract_row_id m row (by omega)
  have hw := proto_line_size_eq m
  have h2lt := proto_two_lt_line_size m
  have hstep1 : parse_step m s SYNC_BYTE =
      { s with line_data := [SYNC_BYTE], ps := READ_LINE } := by
    rcases hstart with hgap | ⟨hsync, hlock⟩
    · exact parse_step_gap_hit m s hgap
    · rw [parse_step_sync_hit m s hsync, machine_eta_locked s _ _ hlock]
  rw [mk_line_record]
  simp only [List.cons_append]
  rw [parseBytes_cons, hstep1, parseBytes_cons,
    parse_step_read_mid m _ row rfl (fun _ => by rw [hrowid]; omega) (by simp; omega)]
  rw [parse_read_accum m _ _ rfl (by simp) (by simp; omega) (by simp)]
  have hld : ((([SYNC_BYTE] : List Nat) ++ [row]) ++
      (payload ++ [crc16_ccitt payload >>> 8, crc16_ccitt payload % 256])) =
      mk_line_record row payload := by
    simp [mk_line_record]
  simp only [hld]
  have e2 : (proto m).line_size - 2 = payload.length + 2 := by omega
  have e1 : (proto m).line_size - 1 = payload.length + 3 := by omega
  have hexp : (((mk_line_record row payload).getD ((proto m).line_size - 2) 0) <<< 8) |||
      (mk_line_record row payload).getD ((proto m).line_size - 1) 0 =
      crc16_ccitt payload := by
    rw [e2, e1, mk_line_record_getD_hi, mk_line_record_getD_lo, high_low_or]
  have hgot : crc16_ccitt (((mk_line_record row payload).drop 2).take (proto m).width) =
      crc16_ccitt payload := by
    rw [← hpl, mk_line_record_take_payload]
  simp only [handle_complete_line, mk_line_record_getD_one, hrowid, hexp, hgot,
    ne_eq, not_true_eq_false, if_false, ite_false, ite_true]
  simp only [hnb, hact, ite_true, ite_false, if_true, if_false]
  cases s
  simp only [Machine.mk.injEq]
  simp only [and_true, true_and]
  funext i
  by_cases hg : row * (proto m).width ≤ i ∧ i < row * (proto m).width + (proto m).width
  · rw [if_pos hg, if_pos hg, mk_line_record_drop_two, List.getD_append _ _ _ _ (by omega)]
  · rw [if_neg hg, if_neg hg]

/-- Effect of one well-formed record whose row triggers the frame boundary
while the pending-send slot is free: the frame is handed off with a
stamped header and the sent counter and frame id advance. -/
theorem parse_record_boundary (m : protocol_mode_t) (s : Machine) (row : Nat)
    (payload : List Nat)
    (hstart : s.ps = SCAN_GAP ∨ (s.ps = SCAN_SYNC ∧ s.frame_locked = false))
    (hrowlt : row < (proto m).lvds_height)
    (hpl : payload.length = (proto m).width)
    (hb : (row : Int) ≤ s.prev_row ∧ 0 ≤ s.prev_row ∧ 0 < s.lines_placed)
    (hsend : s.send_fb = none) :
    (parseBytes m s (mk_line_record row payload)).frames_sent = (s.frames_sent + 1) % 2 ^ 32 ∧
    (parseBytes m s (mk_line_record row payload)).fw_frame_id = (s.fw_frame_id + 1) % 2 ^ 32 ∧
    (parseBytes m s (mk_line_record row payload)).frames_dropped = s.frames_dropped ∧
    (parseBytes m s (mk_line_record row payload)).send_fb = some s.asm_fb ∧
    (parseBytes m s (mk_line_record row payload)).send_hdr =
      [FRAME_MAGIC_0, FRAME_MAGIC_1, ((s.fw_frame_id + 1) % 2 ^ 32) % 256,
       (((s.fw_frame_id + 1) % 2 ^ 32) >>> 8) % 256, (proto m).width % 256,
       ((proto m).width >>> 8) % 256, (proto m).active_height % 256,
       ((proto m).active_height >>> 8) % 256] ∧
    (parseBytes m s (mk_line_record row payload)).send_total =
      FRAME_HDR_SIZE + (proto m).width * (proto m).active_height ∧
    (parseBytes m s (mk_line_record row payload)).send_offset = 0 ∧
    (parseBytes m s (mk_line_record row payload)).crc_errors = s.crc_errors ∧
    (parseBytes m s (mk_line_record row payload)).crc_ok_lines = (s.crc_ok_lines + 1) % 2 ^ 32 ∧
    (parseBytes m s (mk_line_record row payload)).ps = SCAN_GAP := by
  have hlvds128 := proto_lvds_le_128 m
  have hrowid : extract_row m row = row := extract_row_id m row (by omega)
  have hw := proto_line_size_eq m
  have h2lt := proto_two_lt_line_size m
  have hstep1 : parse_step m s SYNC_BYTE =
      { s with line_data := [SYNC_BYTE], ps := READ_LINE } := by
    rcases hstart with hgap | ⟨hsync, hlock⟩
    · exact parse_step_gap_hit m s hgap
    · rw [parse_step_sync_hit m s hsync, machine_eta_locked s _ _ hlock]
  rw [mk_line_record]
  simp only [List.cons_append]
  rw [parseBytes_cons, hstep1, parseBytes_cons,
    parse_step_read_mid m _ row rfl (fun _ => by rw [hrowid]; omega) (by simp; omega)]
  rw [parse_read_accum m _ _ rfl (by simp) (by simp; omega) (by simp)]
  have hld : ((([SYNC_BYTE] : List Nat) ++ [row]) ++
      (payload ++ [crc16_ccitt payload >>> 8, crc16_ccitt payload % 256])) =
      mk_line_record row payload := by
    simp [mk_line_record]
  simp only [hld]
  have e2 : (proto m).line_size - 2 = payload.length + 2 := by omega
  have e1 : (proto m).line_size - 1 = payload.length + 3 := by omega
  have hexp : (((mk_line_record row payload).getD ((proto m).line_size - 2) 0) <<< 8) |||
      (mk_line_record row payload).getD ((proto m).line_size - 1) 0 =
      crc16_ccitt payload := by
    rw [e2, e1, mk_line_record_getD_hi, mk_line_record_getD_lo, high_low_or]
  have hgot : crc16_ccitt (((mk_line_record row payload).drop 2).take (proto m).width) =
      crc16_ccitt payload := by
    rw [← hpl, mk_line_record_take_payload]
  simp only [handle_complete_line, mk_line_record_getD_one, hrowid, hexp, hgot,
    ne_eq, not_true_eq_false, if_false, ite_false, ite_true]
  simp only [if_pos (show (row : Int) ≤ s.prev_row ∧ 0 ≤ s.prev_row ∧ 0 < s.lines_placed from hb)]
  simp only [emit_assembled_frame, hsend, Option.isNone_none, ite_true, if_true]
  split <;> simp

/-- Cumulative effect of N consecutive well-formed records with rows
k, k+1, ... on a state with no meaningful previous row at k-1: every
payload lands at its row offset and no frame boundary fires. -/
theorem parse_records_effect (m : protocol_mode_t) :
    ∀ (pls : List (List Nat)) (k : Nat) (s : Machine),
    (∀ pl ∈ pls, pl.length = (proto m).width) →
    k + pls.length ≤ (proto m).active_height →
    (s.ps = SCAN_GAP ∨ (s.ps = SCAN_SYNC ∧ s.frame_locked = false)) →
    s.prev_row = (k : Int) - 1 →
    s.lines_placed = k →
    (∀ i, k ≤ i → s.line_placed i = false) →
    ((parseBytes m s (records_from k pls)).ps = SCAN_GAP ∨
      ((parseBytes m s (records_from k pls)).ps = SCAN_SYNC ∧
       (parseBytes m s (records_from k pls)).frame_locked = false)) ∧
    (parseBytes m s (records_from k pls)).prev_row = (k + pls.length : Int) - 1 ∧
    (parseBytes m s (records_from k pls)).lines_placed = k + pls.length ∧
    (∀ i, (parseBytes m s (records_from k pls)).asm_fb i =
      if k * (proto m).width ≤ i ∧ i < (k + pls.length) * (proto m).width then
        (pls.getD ((i - k * (proto m).width) / (proto m).width) []).getD
          ((i - k * (proto m).width) % (proto m).width) 0
      else s.asm_fb i) ∧
    (parseBytes m s (records_from k pls)).send_fb = s.send_fb ∧
    (parseBytes m s (records_from k pls)).fw_frame_id = s.fw_frame_id ∧
    (parseBytes m s (records_from k pls)).frames_sent = s.frames_sent ∧
    (parseBytes m s (records_from k pls)).frames_dropped = s.frames_dropped := by
  intro pls
  induction pls with
  | nil =>
    intro k s _ _ hstart hprev hlp _
    refine ⟨hstart, by simpa using hprev, by simpa using hlp, ?_, rfl, rfl, rfl, rfl⟩
    intro i
    rw [if_neg (by simp only [List.length_nil, Nat.add_zero]; omega)]
    rfl
  | cons pl rest ih =>
    intro k s hw hk hstart hprev hlp hplaced
    have hwidth := proto_width_pos m
    have hplw : pl.length = (proto m).width := hw pl (by simp)
    have hactive : k < (proto m).active_height := by
      simp only [List.length_cons] at hk
      omega
    have hrowlt : k < (proto m).lvds_height :=
      lt_of_lt_of_le hactive (proto_active_le_lvds m)
    have hnb : ¬ ((k : Int) ≤ s.prev_row ∧ 0 ≤ s.prev_row ∧ 0 < s.lines_placed) := by
      rw [hprev]
      omega
    have hrec := parse_record_place m s k pl hstart hrowlt hactive hplw hnb
    rw [show records_from k (pl :: rest) =
      mk_line_record k pl ++ records_from (k + 1) rest from rfl,
      parseBytes_append, hrec]
    have hlpk : s.line_placed k = false := hplaced k le_rfl
    obtain ⟨c1, c2, c3, c4, c5, c6, c7, c8⟩ :=
      ih (k + 1)
        { s with
          ps := SCAN_GAP
          line_data := []
          gap_budget := (MAX_GAP_BYTES : Int)
          frame_locked := true
          prev_row := (k : Int)
          crc_ok_lines := (s.crc_ok_lines + 1) % 2 ^ 32
          asm_fb := fun i =>
            if k * (proto m).width ≤ i ∧ i < k * (proto m).width + (proto m).width then
              pl.getD (i - k * (proto m).width) 0
            else s.asm_fb i
          line_placed := fun i => if i = k then true else s.line_placed i
          lines_placed :=
            if s.line_placed k then s.lines_placed else s.lines_placed + 1 }
        (fun q hq => hw q (by simp [hq]))
        (by simp only [List.length_cons] at hk ⊢; omega)
        (Or.inl rfl)
        (by show (k : Int) = ((k + 1 : Nat) : Int) - 1; omega)
        (by simp [hlpk, hlp])
        (fun i hi => by
          simp only []
          rw [if_neg (by omega)]
          exact hplaced i (by omega))
    refine ⟨c1, ?_, ?_, ?_, c5, c6, c7, c8⟩
    · rw [c2]
      push_cast [List.length_cons]
      ring
    · rw [c3]
      simp only [List.length_cons]
      omega
    · intro i
      rw [c4 i]
      have e1 : (k + 1) * (proto m).width = k * (proto m).width + (proto m).width := by ring
      have e2 : (k + 1 + rest.length) * (proto m).width =
          k * (proto m).width + (proto m).width + rest.length * (proto m).width := by ring
      have e3 : (k + (pl :: rest).length) * (proto m).width =
          k * (proto m).width + (proto m).width + rest.length * (proto m).width := by
        simp only [List.length_cons]
        ring
      by_cases hc1 : k * (proto m).width + (proto m).width ≤ i ∧
          i < k * (proto m).width + (proto m).width + rest.length * (proto m).width
      · rw [if_pos (by omega), if_pos (by omega)]
        have hx : i - k * (proto m).width =
            (i - (k + 1) * (proto m).width) + (proto m).width := by
          rw [e1]
          omega
        rw [hx, Nat.add_div_right _ hwidth, Nat.add_mod_right, List.getD_cons_succ]
      · rw [if_neg (by omega)]
        simp only []
        by_cases hc2 : k * (proto m).width ≤ i ∧ i < k * (proto m).width + (proto m).width
        · rw [if_pos hc2, if_pos (by omega)]
          have hd : (i - k * (proto m).width) / (proto m).width = 0 :=
            Nat.div_eq_of_lt (by omega)
          have hm : (i - k * (proto m).width) % (proto m).width = i - k * (proto m).width :=
            Nat.mod_eq_of_lt (by omega)
          rw [hd, hm, List.getD_cons_zero]
        · rw [if_neg hc2, if_neg (by omega)]
/-- C1: feeding the parser, from reset, N well-formed line records with
correct CRCs and rows 0..active_height-1 in order, followed by one more
valid row-0 record, yields exactly one emitted frame (pending-send slot
handoff, one sent, none dropped, frame id 1) whose pixel grid equals the
concatenation of the N payloads in row order and whose stamped header
carries the active descriptor's width and active height. -/
theorem round_trip_single_frame (m : protocol_mode_t) (payloads : List (List Nat))
    (q : List Nat)
    (hN : payloads.length = (proto m).active_height)
    (hw : ∀ pl ∈ payloads, pl.length = (proto m).width)
    (hq : q.length = (proto m).width) :
    (parseBytes m reset_machine
        (records_from 0 payloads ++ mk_line_record 0 q)).frames_sent = 1 ∧
    (parseBytes m reset_machine
        (records_from 0 payloads ++ mk_line_record 0 q)).fw_frame_id = 1 ∧
    (parseBytes m reset_machine
        (records_from 0 payloads ++ mk_line_record 0 q)).frames_dropped = 0 ∧
    (∃ fb, (parseBytes m reset_machine
        (records_from 0 payloads ++ mk_line_record 0 q)).send_fb = some fb ∧
      ∀ i, i < (proto m).active_height * (proto m).width →
        fb i = (payloads.getD (i / (proto m).width) []).getD (i % (proto m).width) 0) ∧
    (parseBytes m reset_machine
        (records_from 0 payloads ++ mk_line_record 0 q)).send_hdr =
      [0xFE, 0xED, 1, 0, (proto m).width % 256, ((proto m).width >>> 8) % 256,
       (proto m).active_height % 256, ((proto m).active_height >>> 8) % 256] := by
  have hact := proto_active_pos m
  obtain ⟨c1, c2, c3, c4, c5, c6, c7, c8⟩ :=
    parse_records_effect m payloads 0 reset_machine hw (by omega)
      (Or.inr ⟨rfl, rfl⟩) (by norm_num [reset_machine]) rfl (fun i _ => rfl)
  rw [parseBytes_append]
  have hb : ((0 : Nat) : Int) ≤ (parseBytes m reset_machine (records_from 0 payloads)).prev_row ∧
      0 ≤ (parseBytes m reset_machine (records_from 0 payloads)).prev_row ∧
      0 < (parseBytes m reset_machine (records_from 0 payloads)).lines_placed := by
    rw [c2, c3]
    push_cast
    omega
  have hsend : (parseBytes m reset_machine (records_from 0 payloads)).send_fb = none := by
    rw [c5]
    rfl
  obtain ⟨b1, b2, b3, b4, b5, b6, b7, b8, b9, b10⟩ :=
    parse_record_boundary m (parseBytes m reset_machine (records_from 0 payloads)) 0 q
      c1 (by have := proto_active_le_lvds m; omega) hq hb hsend
  refine ⟨?_, ?_, ?_, ⟨_, b4, ?_⟩, ?_⟩
  · rw [b1, c7]
    rfl
  · rw [b2, c6]
    rfl
  · rw [b3, c8]
    rfl
  · intro i hi
    have e : (0 + payloads.length) * (proto m).width =
        (proto m).active_height * (proto m).width := by
      rw [hN]
      ring
    rw [c4 i, if_pos ⟨by omega, by omega⟩]
    simp
  · rw [b5, c6]
    rfl

/-- Witness for C1 at a concrete input: Nichia mode, 64 rows of constant
payloads, plus one row-0 record. -/
theorem round_trip_single_frame_witness :
    (parseBytes MODE_NICHIA reset_machine
        (records_from 0 (List.replicate 64 (List.replicate 256 7)) ++
          mk_line_record 0 (List.replicate 256 9))).frames_sent = 1 ∧
    (parseBytes MODE_NICHIA reset_machine
        (records_from 0 (List.replicate 64 (List.replicate 256 7)) ++
          mk_line_record 0 (List.replicate 256 9))).fw_frame_id = 1 ∧
    (parseBytes MODE_NICHIA reset_machine
        (records_from 0 (List.replicate 64 (List.replicate 256 7)) ++
          mk_line_record 0 (List.replicate 256 9))).frames_dropped = 0 ∧
    (∃ fb, (parseBytes MODE_NICHIA reset_machine
        (records_from 0 (List.replicate 64 (List.replicate 256 7)) ++
          mk_line_record 0 (List.replicate 256 9))).send_fb = some fb ∧
      ∀ i, i < (proto MODE_NICHIA).active_height * (proto MODE_NICHIA).width →
        fb i = ((List.replicate 64 (List.replicate 256 7)).getD
          (i / (proto MODE_NICHIA).width) []).getD (i % (proto MODE_NICHIA).width) 0) ∧
    (parseBytes MODE_NICHIA reset_machine
        (records_from 0 (List.replicate 64 (List.replicate 256 7)) ++
          mk_line_record 0 (List.replicate 256 9))).send_hdr =
      [0xFE, 0xED, 1, 0, (proto MODE_NICHIA).width % 256,
       ((proto MODE_NICHIA).width >>> 8) % 256,
       (proto MODE_NICHIA).active_height % 256,
       ((proto MODE_NICHIA).active_height >>> 8) % 256] :=
  round_trip_single_frame MODE_NICHIA (List.replicate 64 (List.replicate 256 7))
    (List.replicate 256 9) (by rw [List.length_replicate]; rfl)
    (fun pl hpl => by rw [List.eq_of_mem_replicate hpl, List.length_replicate]; rfl)
    (by rw [List.length_replicate]; rfl)
/-- C2: a completed line whose trailing CRC field differs from the CRC
computed over its payload is never placed (assembly buffer, placed-row map
and counter untouched), bumps the CRC-error counter by exactly one, and
sends the parser to ScanningGap with the extended budget
MAX_GAP_BYTES + line_record_size. -/
theorem crc_mismatch_line_not_placed (m : protocol_mode_t) (s : Machine) (b : Nat)
    (hps : s.ps = READ_LINE)
    (hlen : s.line_data.length + 1 = (proto m).line_size)
    (hbad : crc16_ccitt (((s.line_data ++ [b]).drop 2).take (proto m).width) ≠
      (((s.line_data ++ [b]).getD ((proto m).line_size - 2) 0) <<< 8 |||
        (s.line_data ++ [b]).getD ((proto m).line_size - 1) 0)) :
    (parse_step m s b).asm_fb = s.asm_fb ∧
    (parse_step m s b).line_placed = s.line_placed ∧
    (parse_step m s b).lines_placed = s.lines_placed ∧
    (parse_step m s b).crc_errors = (s.crc_errors + 1) % 2 ^ 32 ∧
    (parse_step m s b).crc_ok_lines = s.crc_ok_lines ∧
    (parse_step m s b).prev_row = s.prev_row ∧
    (parse_step m s b).ps = SCAN_GAP ∧
    (parse_step m s b).gap_budget = (MAX_GAP_BYTES : Int) + (proto m).line_size := by
  have hh : handle_complete_line m { s with line_data := s.line_data ++ [b] } =
      ({ s with
          line_data := s.line_data ++ [b]
          crc_errors := (s.crc_errors + 1) % 2 ^ 32 }, false) := by
    simp only [handle_complete_line]
    rw [if_pos (by simpa using hbad)]
  rw [parse_step_read_complete m s b hps hlen, hh]
  simp

/-- C3: every frame-boundary event increments the frame identifier by
exactly one (modulo the 32-bit counter width) regardless of outcome, and
when the pending-send slot is occupied the drop counter increments by one
while the pending frame's content, cursor and header are untouched. -/
theorem frame_boundary_id_and_drop (p : lvds_proto_t) (s : Machine) :
    (emit_assembled_frame p s).fw_frame_id = (s.fw_frame_id + 1) % 2 ^ 32 ∧
    (∀ fb, s.send_fb = some fb →
      (emit_assembled_frame p s).frames_dropped = (s.frames_dropped + 1) % 2 ^ 32 ∧
      (emit_assembled_frame p s).send_fb = some fb ∧
      (emit_assembled_frame p s).send_offset = s.send_offset ∧
      (emit_assembled_frame p s).send_hdr = s.send_hdr ∧
      (emit_assembled_frame p s).send_total = s.send_total ∧
      (emit_assembled_frame p s).frames_sent = s.frames_sent) := by
  constructor
  · simp only [emit_assembled_frame]
    split <;> rfl
  · intro fb hfb
    simp [emit_assembled_frame, hfb]

/-- Witness for C3 at a concrete occupied-slot state. -/
theorem frame_boundary_id_and_drop_witness :
    (emit_assembled_frame PROTO_NICHIA
        { reset_machine with send_fb := some (fun _ => 3) }).fw_frame_id = 1 ∧
    (emit_assembled_frame PROTO_NICHIA
        { reset_machine with send_fb := some (fun _ => 3) }).frames_dropped = 1 ∧
    (emit_assembled_frame PROTO_NICHIA
        { reset_machine with send_fb := some (fun _ => 3) }).send_fb =
      some (fun _ => 3) ∧
    (emit_assembled_frame PROTO_NICHIA
        { reset_machine with send_fb := some (fun _ => 3) }).send_offset = 0 := by
  obtain ⟨h1, h2⟩ := frame_boundary_id_and_drop PROTO_NICHIA
    { reset_machine with send_fb := some (fun _ => 3) }
  obtain ⟨d1, d2, d3, _, _, _⟩ := h2 (fun _ => 3) rfl
  exact ⟨h1, d1, d2, d3⟩

/-- C4: in ReadingLine, when the second (row-address) byte decodes to a
row at or beyond total_line_count: with frame lock the line is abandoned
into ScanningGap with the extended budget; without lock a sync-valued
byte restarts the line as a fresh candidate, and any other byte falls
back to ScanningForSync. -/
theorem row_reject_second_byte (m : protocol_mode_t) (s : Machine) (b : Nat)
    (hps : s.ps = READ_LINE) (hlen : s.line_data.length = 1)
    (hbad : (proto m).lvds_height ≤ extract_row m b) :
    (s.frame_locked = true →
      (parse_step m s b).ps = SCAN_GAP ∧
      (parse_step m s b).gap_budget = (MAX_GAP_BYTES : Int) + (proto m).line_size ∧
      (parse_step m s b).crc_errors = s.crc_errors ∧
      (parse_step m s b).asm_fb = s.asm_fb) ∧
    (s.frame_locked = false → b = SYNC_BYTE →
      (parse_step m s b).ps = READ_LINE ∧ (parse_step m s b).line_data = [b]) ∧
    (s.frame_locked = false → b ≠ SYNC_BYTE →
      (parse_step m s b).ps = SCAN_SYNC ∧ (parse_step m s b).line_data = [] ∧
      (parse_step m s b).frame_locked = false) := by
  rw [parse_step_read_reject m s b hps hlen hbad]
  refine ⟨fun hl => ?_, fun hl hb => ?_, fun hl hb => ?_⟩
  · rw [if_pos hl]
    exact ⟨rfl, rfl, rfl, rfl⟩
  · rw [if_neg (by simp [hl]), if_pos hb]
    exact ⟨hps, rfl⟩
  · rw [if_neg (by simp [hl]), if_neg hb]
    exact ⟨rfl, rfl, hl⟩

set_option maxRecDepth 100000 in
/-- Witness for C2: a Nichia line of zeros whose stored CRC field (0)
differs from the CRC of its payload. -/
theorem crc_mismatch_line_not_placed_witness :
    (parse_step MODE_NICHIA
      { reset_machine with
        ps := READ_LINE
        line_data := SYNC_BYTE :: 0 :: List.replicate 257 0 } 0).crc_errors = 1 ∧
    (parse_step MODE_NICHIA
      { reset_machine with
        ps := READ_LINE
        line_data := SYNC_BYTE :: 0 :: List.replicate 257 0 } 0).ps = SCAN_GAP ∧
    (parse_step MODE_NICHIA
      { reset_machine with
        ps := READ_LINE
        line_data := SYNC_BYTE :: 0 :: List.replicate 257 0 } 0).gap_budget = 324 ∧
    (parse_step MODE_NICHIA
      { reset_machine with
        ps := READ_LINE
        line_data := SYNC_BYTE :: 0 :: List.replicate 257 0 } 0).lines_placed = 0 := by
  obtain ⟨_, _, h3, h4, _, _, h7, h8⟩ := crc_mismatch_line_not_placed MODE_NICHIA
    { reset_machine with
      ps := READ_LINE
      line_data := SYNC_BYTE :: 0 :: List.replicate 257 0 } 0
    rfl (by simp; rfl) (by decide)
  exact ⟨h4, h7, h8, h3⟩

/-- Witness for C4 at a concrete locked state and row byte 68. -/
theorem row_reject_second_byte_witness :
    (parse_step MODE_NICHIA
      { reset_machine with
        ps := READ_LINE
        line_data := [SYNC_BYTE]
        frame_locked := true } 68).ps = SCAN_GAP ∧
    (parse_step MODE_NICHIA
      { reset_machine with
        ps := READ_LINE
        line_data := [SYNC_BYTE]
        frame_locked := true } 68).gap_budget = 324 := by
  obtain ⟨hl, _, _⟩ := row_reject_second_byte MODE_NICHIA
    { reset_machine with
      ps := READ_LINE
      line_data := [SYNC_BYTE]
      frame_locked := true } 68 rfl rfl (by decide)
  obtain ⟨a1, a2, _, _⟩ := hl rfl
  exact ⟨a1, by rw [a2]; rfl⟩
/-- Amended C5: after frame lock, a line that begins with a correct sync
byte but whose decoded row is at or beyond total_line_count (the total
including blanking, not the active count) makes the gap budget
MAX_GAP_BYTES + line_record_size. -/
theorem locked_bad_row_extends_gap (m : protocol_mode_t) (s : Machine) (r : Nat)
    (hps : s.ps = SCAN_GAP) (hlock : s.frame_locked = true)
    (hbad : (proto m).lvds_height ≤ extract_row m r) :
    (parseBytes m s [SYNC_BYTE, r]).ps = SCAN_GAP ∧
    (parseBytes m s [SYNC_BYTE, r]).gap_budget =
      (MAX_GAP_BYTES : Int) + (proto m).line_size ∧
    (parseBytes m s [SYNC_BYTE, r]).frame_locked = true := by
  rw [parseBytes_cons, parse_step_gap_hit m s hps,
    show ∀ t : Machine, parseBytes m t [r] = parse_step m t r from fun t => rfl,
    parse_step_read_reject m { s with line_data := [SYNC_BYTE], ps := READ_LINE } r
      rfl rfl hbad, if_pos hlock]
  exact ⟨rfl, rfl, hlock⟩

/-- Witness for the amended C5 at a concrete locked state and row byte 68. -/
theorem locked_bad_row_extends_gap_witness :
    (parseBytes MODE_NICHIA
      { reset_machine with
        ps := SCAN_GAP
        frame_locked := true
        gap_budget := 64 } [SYNC_BYTE, 68]).ps = SCAN_GAP ∧
    (parseBytes MODE_NICHIA
      { reset_machine with
        ps := SCAN_GAP
        frame_locked := true
        gap_budget := 64 } [SYNC_BYTE, 68]).gap_budget = 324 ∧
    (parseBytes MODE_NICHIA
      { reset_machine with
        ps := SCAN_GAP
        frame_locked := true
        gap_budget := 64 } [SYNC_BYTE, 68]).frame_locked = true := by
  obtain ⟨h1, h2, h3⟩ := locked_bad_row_extends_gap MODE_NICHIA
    { reset_machine with
      ps := SCAN_GAP
      frame_locked := true
      gap_budget := 64 } 68 rfl rfl (by decide)
  exact ⟨h1, by rw [h2]; rfl, h3⟩

set_option maxRecDepth 100000 in
/-- Counterexample to C5 as stated: from reset, a valid row-0 line locks
the frame; a subsequent full line with a correct sync byte, a decoded row
(64) at or beyond active_line_count but inside the blanking range, and a
correct CRC leaves the gap budget at the nominal MAX_GAP_BYTES, not the
extended MAX_GAP_BYTES + line_record_size the claim requires. -/
theorem locked_blanking_row_keeps_nominal_gap :
    (parseBytes MODE_NICHIA reset_machine
      (mk_line_record 0 (List.replicate 256 7))).frame_locked = true ∧
    (proto MODE_NICHIA).active_height ≤ extract_row MODE_NICHIA 64 ∧
    (parseBytes MODE_NICHIA
      (parseBytes MODE_NICHIA reset_machine (mk_line_record 0 (List.replicate 256 7)))
      (mk_line_record 64 (List.replicate 256 8))).gap_budget = (MAX_GAP_BYTES : Int) ∧
    ((MAX_GAP_BYTES : Int) ≠ (MAX_GAP_BYTES : Int) + (proto MODE_NICHIA).line_size) := by
  refine ⟨by decide, by decide, by decide, by decide⟩
theorem gap_consume (m : protocol_mode_t) (bs : List Nat) :
    ∀ s : Machine, s.ps = SCAN_GAP → (∀ x ∈ bs, x ≠ SYNC_BYTE) →
    (bs.length : Int) < s.gap_budget →
    (parseBytes m s bs).ps = SCAN_GAP ∧
    (parseBytes m s bs).gap_budget = s.gap_budget - bs.length ∧
    (parseBytes m s bs).frame_locked = s.frame_locked ∧
    (parseBytes m s bs).gap_resyncs = s.gap_resyncs := by
  induction bs with
  | nil =>
    intro s hps _ _
    refine ⟨hps, ?_, rfl, rfl⟩
    show s.gap_budget = s.gap_budget - (([] : List Nat).length : Int)
    simp
  | cons b rest ih =>
    intro s hps hnb hlen
    simp only [List.length_cons] at hlen
    rw [parseBytes_cons,
      parse_step_gap_miss m s b hps (hnb b (by simp)) (by push_cast at hlen ⊢; omega)]
    obtain ⟨c1, c2, c3, c4⟩ := ih
      { s with
        gap_bytes_total := (s.gap_bytes_total + 1) % 2 ^ 32
        gap_budget := s.gap_budget - 1 }
      hps (fun x hx => hnb x (by simp [hx]))
      (by show (rest.length : Int) < s.gap_budget - 1; push_cast at hlen ⊢; omega)
    refine ⟨c1, ?_, c3, c4⟩
    rw [c2]
    show s.gap_budget - 1 - (rest.length : Int) = s.gap_budget - ((b :: rest).length : Int)
    simp only [List.length_cons]
    push_cast
    ring

/-- C6: in ScanningGap, consuming exactly gap-budget-minus-one non-sync
filler bytes followed by one more non-sync byte exhausts the budget: the
parser drops to ScanningForSync, clears the frame lock, and increments
the resync counter by exactly one. -/
theorem gap_budget_exhaustion_resync (m : protocol_mode_t) (s : Machine)
    (bs : List Nat) (b : Nat)
    (hps : s.ps = SCAN_GAP)
    (hfill : ∀ x ∈ bs, x ≠ SYNC_BYTE)
    (hlen : (bs.length : Int) = s.gap_budget - 1)
    (hb : b ≠ SYNC_BYTE) :
    (parseBytes m s (bs ++ [b])).ps = SCAN_SYNC ∧
    (parseBytes m s (bs ++ [b])).frame_locked = false ∧
    (parseBytes m s (bs ++ [b])).gap_resyncs = (s.gap_resyncs + 1) % 2 ^ 32 := by
  rw [parseBytes_append]
  obtain ⟨c1, c2, c3, c4⟩ := gap_consume m bs s hps hfill (by omega)
  rw [show ∀ t : Machine, parseBytes m t [b] = parse_step m t b from fun t => rfl,
    parse_step_gap_exhaust m _ b c1 hb (by rw [c2]; omega)]
  exact ⟨rfl, rfl, by rw [c4]⟩

/-- Witness for C6: budget 3, two zero fillers, then one more zero byte. -/
theorem gap_budget_exhaustion_resync_witness :
    (parseBytes MODE_NICHIA
      { reset_machine with
        ps := SCAN_GAP
        gap_budget := 3 } ([0, 0] ++ [0])).ps = SCAN_SYNC ∧
    (parseBytes MODE_NICHIA
      { reset_machine with
        ps := SCAN_GAP
        gap_budget := 3 } ([0, 0] ++ [0])).frame_locked = false ∧
    (parseBytes MODE_NICHIA
      { reset_machine with
        ps := SCAN_GAP
        gap_budget := 3 } ([0, 0] ++ [0])).gap_resyncs = 1 := by
  obtain ⟨h1, h2, h3⟩ := gap_budget_exhaustion_resync MODE_NICHIA
    { reset_machine with
      ps := SCAN_GAP
      gap_budget := 3 } [0, 0] 0 rfl (by decide) (by decide) (by decide)
  exact ⟨h1, h2, by rw [h3]; rfl⟩
/-- Amended C9: a CRC-clean line whose decoded row lies in the blanking
range [active_line_count, total_line_count), provided it does not itself
trigger a frame boundary, bumps the CRC-ok counter, updates the
previous-row tracker to its row, and leaves the assembly buffer, the
placed-row map and the placed-row counter untouched. -/
theorem blanking_row_line (m : protocol_mode_t) (s : Machine) (row : Nat)
    (payload : List Nat)
    (hld : s.line_data = mk_line_record row payload)
    (hpl : payload.length = (proto m).width)
    (hrow_lo : (proto m).active_height ≤ row)
    (hrow_hi : row < (proto m).lvds_height)
    (hnb : ¬ ((row : Int) ≤ s.prev_row ∧ 0 ≤ s.prev_row ∧ 0 < s.lines_placed)) :
    handle_complete_line m s =
      ({ s with
          crc_ok_lines := (s.crc_ok_lines + 1) % 2 ^ 32
          prev_row := (row : Int) }, true) := by
  have hlvds128 := proto_lvds_le_128 m
  have hrowid : extract_row m row = row := extract_row_id m row (by omega)
  have hw := proto_line_size_eq m
  have e2 : (proto m).line_size - 2 = payload.length + 2 := by omega
  have e1 : (proto m).line_size - 1 = payload.length + 3 := by omega
  have hexp : ((s.line_data.getD ((proto m).line_size - 2) 0) <<< 8) |||
      s.line_data.getD ((proto m).line_size - 1) 0 = crc16_ccitt payload := by
    rw [hld, e2, e1, mk_line_record_getD_hi, mk_line_record_getD_lo, high_low_or]
  have hgot : crc16_ccitt ((s.line_data.drop 2).take (proto m).width) =
      crc16_ccitt payload := by
    rw [hld, ← hpl, mk_line_record_take_payload]
  have hrow1 : s.line_data.getD 1 0 = row := by
    rw [hld, mk_line_record_getD_one]
  simp only [handle_complete_line, hrow1, hrowid, hexp, hgot, ne_eq,
    not_true_eq_false, if_false, ite_false, ite_true]
  simp only [hnb, ite_false, if_false]
  rw [if_neg (by omega)]

set_option maxRecDepth 100000 in
/-- Witness for the amended C9: Nichia, blanking row 64 after a fresh
reset (previous row -1, nothing placed). -/
theorem blanking_row_line_witness :
    handle_complete_line MODE_NICHIA
      { reset_machine with
        ps := READ_LINE
        line_data := mk_line_record 64 (List.replicate 256 5) } =
      ({ reset_machine with
          ps := READ_LINE
          line_data := mk_line_record 64 (List.replicate 256 5)
          crc_ok_lines := 1
          prev_row := (64 : Int) }, true) :=
  blanking_row_line MODE_NICHIA
    { reset_machine with
      ps := READ_LINE
      line_data := mk_line_record 64 (List.replicate 256 5) } 64
    (List.replicate 256 5) rfl (by rw [List.length_replicate]; rfl)
    (by decide) (by decide) (by decide)

set_option maxRecDepth 100000 in
/-- Counterexample to C9 as stated: rows 0, 65, then blanking row 64 with
a correct CRC.  The third line passes CRC and lies in the blanking range,
yet it triggers the frame boundary, which clears the placed-row
bookkeeping (1 placed row before, 0 after) instead of leaving it
unchanged. -/
theorem blanking_row_can_clear_bookkeeping :
    (parseBytes MODE_NICHIA reset_machine
      (mk_line_record 0 (List.replicate 256 7) ++
        mk_line_record 65 (List.replicate 256 8))).lines_placed = 1 ∧
    (proto MODE_NICHIA).active_height ≤ 64 ∧ 64 < (proto MODE_NICHIA).lvds_height ∧
    (parseBytes MODE_NICHIA reset_machine
      ((mk_line_record 0 (List.replicate 256 7) ++
        mk_line_record 65 (List.replicate 256 8)) ++
        mk_line_record 64 (List.replicate 256 9))).crc_errors = 0 ∧
    (parseBytes MODE_NICHIA reset_machine
      ((mk_line_record 0 (List.replicate 256 7) ++
        mk_line_record 65 (List.replicate 256 8)) ++
        mk_line_record 64 (List.replicate 256 9))).crc_ok_lines = 3 ∧
    (parseBytes MODE_NICHIA reset_machine
      ((mk_line_record 0 (List.replicate 256 7) ++
        mk_line_record 65 (List.replicate 256 8)) ++
        mk_line_record 64 (List.replicate 256 9))).lines_placed = 0 := by
  refine ⟨by decide, by decide, by decide, by decide, by decide, by decide⟩

/-- C10: the status command resets the parser state to ScanningForSync,
discards any partially read line, zeroes the ring consumer cursor,
releases the pending-send slot, zeroes the ring contents and the
peak-occupancy statistic, and preserves every cumulative counter. -/
theorem status_command_resets_capture (s : Machine) :
    (command_S s).ps = SCAN_SYNC ∧
    (command_S s).line_data = [] ∧
    (command_S s).ring_rd = 0 ∧
    (command_S s).send_fb = none ∧
    (∀ i, (command_S s).ring_buf i = 0) ∧
    (command_S s).max_fill = 0 ∧
    (command_S s).frames_sent = s.frames_sent ∧
    (command_S s).frames_dropped = s.frames_dropped ∧
    (command_S s).crc_errors = s.crc_errors ∧
    (command_S s).crc_ok_lines = s.crc_ok_lines ∧
    (command_S s).gap_bytes_total = s.gap_bytes_total ∧
    (command_S s).gap_resyncs = s.gap_resyncs ∧
    (command_S s).total_usb_bytes = s.total_usb_bytes ∧
    (command_S s).fw_frame_id = s.fw_frame_id := by
  simp only [command_S]
  split <;> simp_all [Option.isSome_iff_exists]
  rename_i h
  exact Option.eq_none_iff_forall_not_mem.mpr (fun a ha => h a (by rw [ha]))

theorem range_map_split (f : Nat → Nat) (a b : Nat) :
    (List.range (a + b)).map f =
      (List.range a).map f ++ (List.range b).map (fun j => f (a + j)) := by
  rw [List.range_add, List.map_append, List.map_map]
  rfl

theorem send_passes_zero (p : lvds_proto_t) (hdr : List Nat) (fb : Nat → Nat)
    (total fuel offset : Nat) :
    send_passes p hdr fb total fuel 0 offset = (offset, [], false) := by
  cases fuel <;> simp [send_passes]

/-- Evaluation of the pass loop of `send_frame_chunk` for one poll with
`c` bytes of channel room. -/
theorem send_passes_eval (p : lvds_proto_t) (hdr : List Nat) (fb : Nat → Nat)
    (c offset : Nat)
    (hhdr : hdr.length = 8)
    (hpix : 0 < p.width * p.active_height)
    (hoff : offset < 8 + p.width * p.active_height) :
    send_passes p hdr fb (8 + p.width * p.active_height) 4 c offset =
      (min (offset + c) (8 + p.width * p.active_height),
       ((hdr ++ (List.range (p.width * p.active_height)).map fb).drop offset).take
         (min c (8 + p.width * p.active_height - offset)),
       decide (8 + p.width * p.active_height ≤ offset + c)) := by
  by_cases hc0 : c = 0
  · subst hc0
    rw [send_passes_zero]
    refine Prod.ext ?_ (Prod.ext ?_ ?_) <;> simp <;> omega
  · by_cases ho8 : offset < 8
    · by_cases hr0 : c ≤ 8 - offset
      · have hmin : min c (8 - offset) = c := Nat.min_eq_left hr0
        simp only [send_passes, FRAME_HDR_SIZE, if_neg hc0, if_pos ho8, hmin,
          Nat.sub_self, ite_true, ite_false]
        rw [if_pos (And.intro ho8 (by trivial))]
        refine Prod.ext ?_ (Prod.ext ?_ ?_)
        · show offset + c = min (offset + c) (8 + p.width * p.active_height)
          omega
        · show List.take c (List.drop offset hdr) = _
          rw [List.drop_append_eq_append_drop, show offset - hdr.length = 0 from by omega,
            List.drop_zero, List.take_append_eq_append_take,
            show min c (8 + p.width * p.active_height - offset) = c from by omega,
            show c - (List.drop offset hdr).length = 0 from by simp [hhdr]; omega,
            List.take_zero, List.append_nil]
        · show false = decide (8 + p.width * p.active_height ≤ offset + c)
          rw [eq_comm, decide_eq_false_iff_not]
          omega
      · have hmin : c ⊓ (8 - offset) = 8 - offset := Nat.min_eq_right (by omega)
        have hoc : offset + (8 - offset) = 8 := by omega
        by_cases hrel : p.width * p.active_height ≤ c - (8 - offset)
        · have hm2 : (c - (8 - offset)) ⊓ (p.width * p.active_height) =
            p.width * p.active_height := Nat.min_eq_right hrel
          simp only [send_passes, FRAME_HDR_SIZE, if_neg hc0, if_pos ho8, hmin, hoc,
            Nat.sub_self, Nat.sub_zero, if_pos hpix, hm2, ite_true, ite_false,
            le_refl, and_false, false_and, if_false, if_true]
          rw [if_neg (by omega : ¬ (offset < 8 ∧ c - (8 - offset) = 0))]
          refine Prod.ext ?_ (Prod.ext ?_ ?_)
          · show 8 + p.width * p.active_height = _
            omega
          · show List.take (8 - offset) (List.drop offset hdr) ++
              List.map (fun j => fb (0 + j)) (List.range (p.width * p.active_height)) = _
            rw [List.take_of_length_le (by simp [hhdr]),
              List.drop_append_eq_append_drop,
              show offset - hdr.length = 0 from by omega, List.drop_zero,
              show min c (8 + p.width * p.active_height - offset) =
                8 + p.width * p.active_height - offset from by omega,
              show 8 + p.width * p.active_height - offset =
                (List.drop offset hdr).length +
                  ((List.range (p.width * p.active_height)).map fb).length from by
                simp [hhdr]; omega,
              List.take_append, List.take_of_length_le le_rfl]
            simp
          · show true = decide _
            rw [eq_comm, decide_eq_true_eq]
            omega
        · have hm2 : (c - (8 - offset)) ⊓ (p.width * p.active_height) =
            c - (8 - offset) := Nat.min_eq_left (by omega)
          simp only [send_passes, FRAME_HDR_SIZE, if_neg hc0, if_pos ho8, hmin, hoc,
            Nat.sub_self, Nat.sub_zero, if_pos hpix, hm2, ite_true, ite_false,
            le_refl, and_false, false_and, if_false, if_true]
          rw [if_neg (by omega : ¬ (offset < 8 ∧ c - (8 - offset) = 0))]
          rw [if_neg (by omega :
            ¬ (8 + p.width * p.active_height ≤ 8 + (c - (8 - offset))))]
          refine Prod.ext ?_ (Prod.ext ?_ ?_)
          · show 8 + (c - (8 - offset)) = _
            omega
          · show List.take (8 - offset) (List.drop offset hdr) ++
              List.map (fun j => fb (0 + j)) (List.range (c - (8 - offset))) ++ [] = _
            rw [List.append_nil, List.take_of_length_le (by simp [hhdr]),
              List.drop_append_eq_append_drop,
              show offset - hdr.length = 0 from by omega, List.drop_zero,
              show min c (8 + p.width * p.active_height - offset) = c from by omega,
              List.take_append_eq_append_take,
              show c - (List.drop offset hdr).length = c - (8 - offset) from by
                simp [hhdr],
              List.take_of_length_le (by simp [hhdr]; omega),
              ← List.map_take, List.take_range, hm2]
            simp
          · show false = decide _
            rw [eq_comm, decide_eq_false_iff_not]
            omega
    · have hpo : offset - 8 < p.width * p.active_height := by omega
      have hdrop : ((List.range (p.width * p.active_height)).map fb).drop (offset - 8) =
          List.map (fun j => fb (offset - 8 + j))
            (List.range (p.width * p.active_height - (offset - 8))) := by
        conv_lhs => rw [show p.width * p.active_height =
          (offset - 8) + (p.width * p.active_height - (offset - 8)) from by omega,
          range_map_split]
        rw [List.drop_append_eq_append_drop,
          List.drop_eq_nil_of_le (by simp), List.nil_append,
          show offset - 8 - ((List.range (offset - 8)).map fb).length = 0 from by simp,
          List.drop_zero]
      by_cases hrel : p.width * p.active_height - (offset - 8) ≤ c
      · have hm : c ⊓ (p.width * p.active_height - (offset - 8)) =
          p.width * p.active_height - (offset - 8) := Nat.min_eq_right hrel
        have he : offset + (p.width * p.active_height - (offset - 8)) =
          8 + p.width * p.active_height := by omega
        simp only [send_passes, FRAME_HDR_SIZE, if_neg hc0, if_neg ho8, Nat.add_zero,
          Nat.sub_zero, if_pos hpo, hm, he, le_refl, ite_true, ite_false, false_and,
          and_false, if_false, if_true, List.take_zero, List.nil_append]
        rw [if_neg (by omega : ¬ (offset < 8 ∧ c = 0))]
        refine Prod.ext ?_ (Prod.ext ?_ ?_)
        · show 8 + p.width * p.active_height = _
          omega
        · show List.map (fun j => fb (offset - 8 + j))
            (List.range (p.width * p.active_height - (offset - 8))) = _
          rw [show min c (8 + p.width * p.active_height - offset) =
              8 + p.width * p.active_height - offset from by omega,
            List.drop_append_eq_append_drop,
            List.drop_eq_nil_of_le (by omega : hdr.length ≤ offset), List.nil_append,
            show offset - hdr.length = offset - 8 from by omega, hdrop,
            List.take_of_length_le (by simp; omega)]
        · show true = decide _
          rw [eq_comm, decide_eq_true_eq]
          omega
      · have hm : c ⊓ (p.width * p.active_height - (offset - 8)) = c :=
          Nat.min_eq_left (by omega)
        simp only [send_passes, FRAME_HDR_SIZE, if_neg hc0, if_neg ho8, Nat.add_zero,
          Nat.sub_zero, if_pos hpo, hm, Nat.sub_self, le_refl, ite_true, ite_false,
          false_and, and_false, if_false, if_true, List.take_zero, List.nil_append]
        rw [if_neg (by omega : ¬ (offset < 8 ∧ c = 0))]
        rw [if_neg (by omega : ¬ (8 + p.width * p.active_height ≤ offset + c))]
        refine Prod.ext ?_ (Prod.ext ?_ ?_)
        · show offset + c = _
          omega
        · show List.map (fun j => fb (offset - 8 + j)) (List.range c) ++ [] = _
          rw [List.append_nil,
            show min c (8 + p.width * p.active_height - offset) = c from by omega,
            List.drop_append_eq_append_drop,
            List.drop_eq_nil_of_le (by omega : hdr.length ≤ offset), List.nil_append,
            show offset - hdr.length = offset - 8 from by omega, hdrop,
            ← List.map_take, List.take_range,
            show c ⊓ (p.width * p.active_height - (offset - 8)) = c from hm]
        · show false = decide _
          rw [eq_comm, decide_eq_false_iff_not]
          omega

/-- One poll of the sender with a connected channel that has room for
exactly `c` bytes: the cursor advances by min(c, remaining), the bytes
written are the corresponding slice of header-then-payload, and the
pending-send slot is released exactly when the cursor reaches the total. -/
theorem send_frame_chunk_poll (p : lvds_proto_t) (c : Nat) (s : Machine)
    (fb : Nat → Nat)
    (hfb : s.send_fb = some fb)
    (hhdr : s.send_hdr.length = 8)
    (htot : s.send_total = 8 + p.width * p.active_height)
    (hpix : 0 < p.width * p.active_height)
    (hoff : s.send_offset < s.send_total) :
    (send_frame_chunk p true c s).1.send_offset =
      min (s.send_offset + c) s.send_total ∧
    (send_frame_chunk p true c s).2 =
      ((s.send_hdr ++ (List.range (p.width * p.active_height)).map fb).drop
        s.send_offset).take (min c (s.send_total - s.send_offset)) ∧
    (send_frame_chunk p true c s).1.send_fb =
      (if s.send_total ≤ s.send_offset + c then none else some fb) ∧
    (send_frame_chunk p true c s).1.total_usb_bytes =
      (s.total_usb_bytes + (min c (s.send_total - s.send_offset))) % 2 ^ 32 ∧
    (send_frame_chunk p true c s).1.send_hdr = s.send_hdr ∧
    (send_frame_chunk p true c s).1.send_total = s.send_total := by
  rw [htot] at hoff ⊢
  have heval := send_passes_eval p s.send_hdr fb c s.send_offset hhdr hpix hoff
  simp only [send_frame_chunk, hfb, htot, not_true, ite_false, if_false, heval,
    Bool.not_true, decide_eq_true_eq]
  refine ⟨trivial, trivial, trivial, ?_, trivial, trivial⟩
  congr 2
  rw [List.length_take, List.length_drop, List.length_append, List.length_map,
    List.length_range, hhdr]
  omega

/-- C7: with a pending frame and a connected channel that accepts K <
total bytes on the first poll and the remainder on the second, the frame
is fully sent in exactly two polls: header bytes precede payload bytes,
the cursor advances by exactly the accepted byte counts (0 to K to
total), the pending-send slot is released at the total, and the bytes
written across the two polls are exactly the header followed by the
pixel payload. -/
theorem sender_two_poll_completion (m : protocol_mode_t) (s : Machine)
    (fb : Nat → Nat) (K : Nat)
    (hfb : s.send_fb = some fb)
    (hhdr : s.send_hdr.length = 8)
    (htot : s.send_total = 8 + (proto m).width * (proto m).active_height)
    (hoff : s.send_offset = 0)
    (hK : K < s.send_total) :
    (send_frame_chunk (proto m) true K s).1.send_offset = K ∧
    (send_frame_chunk (proto m) true K s).1.send_fb = some fb ∧
    (send_frame_chunk (proto m) true K s).2 =
      (s.send_hdr ++
        (List.range ((proto m).width * (proto m).active_height)).map fb).take K ∧
    (send_frame_chunk (proto m) true (s.send_total - K)
      (send_frame_chunk (proto m) true K s).1).1.send_offset = s.send_total ∧
    (send_frame_chunk (proto m) true (s.send_total - K)
      (send_frame_chunk (proto m) true K s).1).1.send_fb = none ∧
    (send_frame_chunk (proto m) true K s).2 ++
      (send_frame_chunk (proto m) true (s.send_total - K)
        (send_frame_chunk (proto m) true K s).1).2 =
      s.send_hdr ++ (List.range ((proto m).width * (proto m).active_height)).map fb ∧
    ((send_frame_chunk (proto m) true K s).2 ++
      (send_frame_chunk (proto m) true (s.send_total - K)
        (send_frame_chunk (proto m) true K s).1).2).length = s.send_total ∧
    (send_frame_chunk (proto m) true (s.send_total - K)
      (send_frame_chunk (proto m) true K s).1).1.total_usb_bytes =
      (s.total_usb_bytes + s.send_total) % 2 ^ 32 := by
  have hP : 0 < (proto m).width * (proto m).active_height :=
    Nat.mul_pos (proto_width_pos m) (proto_active_pos m)
  have hlenX : (s.send_hdr ++
      (List.range ((proto m).width * (proto m).active_height)).map fb).length =
      s.send_total := by
    rw [List.length_append, List.length_map, List.length_range, hhdr, htot]
  obtain ⟨a1, a2, a3, a4, a5, a6⟩ :=
    send_frame_chunk_poll (proto m) K s fb hfb hhdr htot hP (by omega)
  have f1off : (send_frame_chunk (proto m) true K s).1.send_offset = K := by
    rw [a1, hoff]
    omega
  have f1fb : (send_frame_chunk (proto m) true K s).1.send_fb = some fb := by
    rw [a3, if_neg (by omega)]
  have f1wr : (send_frame_chunk (proto m) true K s).2 =
      (s.send_hdr ++
        (List.range ((proto m).width * (proto m).active_height)).map fb).take K := by
    rw [a2, hoff, List.drop_zero, show min K (s.send_total - 0) = K from by omega]
  obtain ⟨b1, b2, b3, b4, b5, b6⟩ :=
    send_frame_chunk_poll (proto m) (s.send_total - K)
      (send_frame_chunk (proto m) true K s).1 fb f1fb (by rw [a5, hhdr])
      (by rw [a6, htot]) hP (by rw [f1off, a6]; omega)
  have f2off : (send_frame_chunk (proto m) true (s.send_total - K)
      (send_frame_chunk (proto m) true K s).1).1.send_offset = s.send_total := by
    rw [b1, f1off, a6]
    omega
  have f2wr : (send_frame_chunk (proto m) true (s.send_total - K)
      (send_frame_chunk (proto m) true K s).1).2 =
      (s.send_hdr ++
        (List.range ((proto m).width * (proto m).active_height)).map fb).drop K := by
    rw [b2, f1off, a5, a6,
      show min (s.send_total - K) (s.send_total - K) = s.send_total - K from by omega]
    exact List.take_of_length_le (by rw [List.length_drop, hlenX])
  refine ⟨f1off, f1fb, f1wr, f2off, ?_, ?_, ?_, ?_⟩
  · rw [b3, f1off, a6, if_pos (by omega)]
  · rw [f1wr, f2wr, List.take_append_drop]
  · rw [f1wr, f2wr, List.take_append_drop, hlenX]
  · rw [b4, a4, Nat.mod_add_mod, f1off, a6, hoff]
    congr 1
    omega

/-- Witness for C7: Nichia geometry, total 16392 bytes, K = 1000 accepted
on the first poll and 15392 on the second. -/
theorem sender_two_poll_completion_witness :
    (send_frame_chunk (proto MODE_NICHIA) true 1000
      { reset_machine with
        send_fb := some (fun i => i % 251)
        send_hdr := [254, 237, 1, 0, 0, 1, 64, 0]
        send_total := 16392
        send_offset := 0 }).1.send_offset = 1000 ∧
    (send_frame_chunk (proto MODE_NICHIA) true 16392
      { reset_machine with
        send_fb := some (fun i => i % 251)
        send_hdr := [254, 237, 1, 0, 0, 1, 64, 0]
        send_total := 16392
        send_offset := 0 }).1.send_offset = 16392 ∧
    (send_frame_chunk (proto MODE_NICHIA) true (16392 - 1000)
      (send_frame_chunk (proto MODE_NICHIA) true 1000
        { reset_machine with
          send_fb := some (fun i => i % 251)
          send_hdr := [254, 237, 1, 0, 0, 1, 64, 0]
          send_total := 16392
          send_offset := 0 }).1).1.send_fb = none ∧
    (send_frame_chunk (proto MODE_NICHIA) true 1000
      { reset_machine with
        send_fb := some (fun i => i % 251)
        send_hdr := [254, 237, 1, 0, 0, 1, 64, 0]
        send_total := 16392
        send_offset := 0 }).2 ++
      (send_frame_chunk (proto MODE_NICHIA) true (16392 - 1000)
        (send_frame_chunk (proto MODE_NICHIA) true 1000
          { reset_machine with
            send_fb := some (fun i => i % 251)
            send_hdr := [254, 237, 1, 0, 0, 1, 64, 0]
            send_total := 16392
            send_offset := 0 }).1).2 =
      [254, 237, 1, 0, 0, 1, 64, 0] ++
        (List.range ((proto MODE_NICHIA).width * (proto MODE_NICHIA).active_height)).map
          (fun i => i % 251) := by
  obtain ⟨w1, _, _, w4, w5, w6, _, _⟩ := sender_two_poll_completion MODE_NICHIA
    { reset_machine with
      send_fb := some (fun i => i % 251)
      send_hdr := [254, 237, 1, 0, 0, 1, 64, 0]
      send_total := 16392
      send_offset := 0 } (fun i => i % 251) 1000 rfl rfl (by decide) rfl (by decide)
  refine ⟨w1, ?_, w5, w6⟩
  obtain ⟨v1, _, _, _, _, _⟩ := send_frame_chunk_poll (proto MODE_NICHIA) 16392
    { reset_machine with
      send_fb := some (fun i => i % 251)
      send_hdr := [254, 237, 1, 0, 0, 1, 64, 0]
      send_total := 16392
      send_offset := 0 } (fun i => i % 251) rfl rfl (by decide) (by decide) (by decide)
  rw [v1]
  rfl
/-- C8: the table-driven CRC (256-entry table from the bitwise recurrence,
applied byte-at-a-time) computes exactly CRC-16/CCITT-FALSE on byte
streams, and `handle_complete_line` accepts a completed record exactly
when that CRC over the pixel-payload bytes (offsets 2..line_record_size-3,
excluding sync, row-address and the trailing CRC field) equals the
trailing big-endian CRC field. -/
theorem crc_table_impl_matches_spec (m : protocol_mode_t) (s : Machine)
    (hbytes : ∀ b ∈ s.line_data, b < 256) :
    (∀ data : List Nat, (∀ b ∈ data, b < 256) →
      crc16_ccitt data = crc16_ccitt_false_spec data) ∧
    ((handle_complete_line m s).2 = true ↔
      crc16_ccitt_false_spec ((s.line_data.drop 2).take ((proto m).line_size - 4)) =
        ((s.line_data.getD ((proto m).line_size - 2) 0) <<< 8 |||
          s.line_data.getD ((proto m).line_size - 1) 0)) := by
  refine ⟨crc16_ccitt_eq_spec, ?_⟩
  have hslice : ∀ b ∈ (s.line_data.drop 2).take ((proto m).line_size - 4), b < 256 :=
    fun b hb => hbytes b (List.mem_of_mem_drop (List.mem_of_mem_take hb))
  have hwidth : (proto m).line_size - 4 = (proto m).width := by
    have := proto_line_size_eq m
    omega
  rw [hwidth] at hslice ⊢
  rw [← crc16_ccitt_eq_spec _ hslice]
  by_cases hc : crc16_ccitt ((s.line_data.drop 2).take (proto m).width) =
      ((s.line_data.getD ((proto m).line_size - 2) 0) <<< 8 |||
        s.line_data.getD ((proto m).line_size - 1) 0)
  · simp only [handle_complete_line, hc, ne_eq, not_true_eq_false, if_false,
      ite_false]
    refine ⟨fun _ => trivial, fun _ => ?_⟩
    split <;> rfl
  · simp only [handle_complete_line, ne_eq]
    rw [if_pos hc]
    exact ⟨fun h => absurd h (by simp), fun h => absurd h hc⟩

set_option maxRecDepth 100000 in
/-- Witness for C8 at a concrete well-formed Nichia record. -/
theorem crc_table_impl_matches_spec_witness :
    (∀ b ∈ ({ reset_machine with
        ps := READ_LINE
        line_data := mk_line_record 0 (List.replicate 256 3) } : Machine).line_data,
      b < 256) ∧
    ((handle_complete_line MODE_NICHIA
        { reset_machine with
          ps := READ_LINE
          line_data := mk_line_record 0 (List.replicate 256 3) }).2 = true ↔
      crc16_ccitt_false_spec
          ((({ reset_machine with
              ps := READ_LINE
              line_data := mk_line_record 0 (List.replicate 256 3) } : Machine).line_data.drop 2).take
            ((proto MODE_NICHIA).line_size - 4)) =
        ((({ reset_machine with
            ps := READ_LINE
            line_data := mk_line_record 0 (List.replicate 256 3) } : Machine).line_data.getD
              ((proto MODE_NICHIA).line_size - 2) 0) <<< 8 |||
          ({ reset_machine with
            ps := READ_LINE
            line_data := mk_line_record 0 (List.replicate 256 3) } : Machine).line_data.getD
              ((proto MODE_NICHIA).line_size - 1) 0)) :=
  ⟨by decide,
   (crc_table_impl_matches_spec MODE_NICHIA
      { reset_machine with
        ps := READ_LINE
        line_data := mk_line_record 0 (List.replicate 256 3) } (by decide)).2⟩
